import Mathlib

/-!
# PacMan (src/main.go): a shallow embedding of the game core

Conventions of the embedding.

* A Go `string` is its sequence of bytes, `List Nat` (`maze[r][c]` indexes bytes).
  Byte constants: `'#'` = 35, `'.'` = 46, `' '` = 32, `'X'` = 88, `'P'` = 80, `'G'` = 71,
  `'['` = 91, `'A'`..`'D'` = 65..68, ESC = 27 (0x1b).
* Go `int` values (positions, score, numDots, lives) are `Int`, without the 64-bit wraparound
  of Go.  The model and the code agree as long as no operation leaves the 64-bit range.
  Positions computed from an in-bounds position are within one of a slice length.  Theorems
  that depend on the arithmetic of `score` and `numDots` are stated for states reached from
  `loadMaze`, where `numDots` is the number of dot cells.
* A run-time panic (index or slice out of range) is `none`: functions that index the maze
  return `Option`.
* The package-level variables `maze`, `ghosts`, `player`, `score`, `numDots`, `lives` are the
  fields of `Game`; the field `pillCalls` counts the `go processPill()` statements executed.
* Event and direction strings ("UP", "ESC", ...) are Lean strings.
-/

namespace PacMan

/-- Go string: the list of its bytes. -/
abbrev GoString := List Nat

/-- Go `type sprite struct`. -/
structure Sprite where
  row : Int
  col : Int
  startRow : Int
  startCol : Int
deriving DecidableEq, Repr

/-- Go `type GhostStatus string` with its two constants. -/
inductive GhostStatus where
  | Normal
  | Blue
deriving DecidableEq, Repr

/-- Go `type ghost struct`. -/
structure Ghost where
  position : Sprite
  status : GhostStatus
deriving DecidableEq, Repr

/-- The package-level variables of main.go that the game loop reads and writes. -/
structure Game where
  maze : List GoString
  ghosts : List Ghost
  player : Sprite
  score : Int
  numDots : Int
  lives : Int
  pillCalls : Nat
deriving DecidableEq, Repr

/-- Go indexing `xs[i]` with an `int` index: panics (none) outside `0 <= i < len(xs)`. -/
def idx {α : Type} (xs : List α) (i : Int) : Option α :=
  if i < 0 then none else xs[i.toNat]?

/-- Go `maze[row][col]`. -/
def cellAt (maze : List GoString) (row col : Int) : Option Nat :=
  (idx maze row).bind (fun line => idx line col)

/-- Go `makeMove` (main.go 133-167); `none` is a run-time panic. -/
def makeMove (maze : List GoString) (oldRow oldCol : Int) (dir : String) : Option (Int × Int) :=
  let cand : Option (Int × Int) :=
    if dir = "UP" then
      let newRow := oldRow - 1
      some (if newRow < 0 then (maze.length : Int) - 1 else newRow, oldCol)
    else if dir = "DOWN" then
      let newRow := oldRow + 1
      some (if newRow = (maze.length : Int) then 0 else newRow, oldCol)
    else if dir = "RIGHT" then
      let newCol := oldCol + 1
      (idx maze 0).bind (fun row0 =>
        some (oldRow, if newCol = (row0.length : Int) then 0 else newCol))
    else if dir = "LEFT" then
      let newCol := oldCol - 1
      if newCol < 0 then
        (idx maze 0).bind (fun row0 => some (oldRow, (row0.length : Int) - 1))
      else some (oldRow, newCol)
    else some (oldRow, oldCol)
  cand.bind (fun p =>
    (cellAt maze p.1 p.2).bind (fun cell =>
      if cell = 35 then some (oldRow, oldCol) else some p))

/-- Go slice expression `s[0:hi]`: panics unless `0 <= hi <= len(s)`. -/
def sliceTo (s : GoString) (hi : Int) : Option GoString :=
  if 0 ≤ hi ∧ hi ≤ (s.length : Int) then some (s.take hi.toNat) else none

/-- Go slice expression `s[lo:]`: panics unless `0 <= lo <= len(s)`. -/
def sliceFrom (s : GoString) (lo : Int) : Option GoString :=
  if 0 ≤ lo ∧ lo ≤ (s.length : Int) then some (s.drop lo.toNat) else none

/-- Go assignment `xs[i] = v`: panics outside `0 <= i < len(xs)`. -/
def setIdx {α : Type} (xs : List α) (i : Int) (v : α) : Option (List α) :=
  if 0 ≤ i ∧ i < (xs.length : Int) then some (xs.set i.toNat v) else none

/-- The closure `removeDot` of `movePlayer`:
`maze[row] = maze[row][0:col] + " " + maze[row][col+1:]`. -/
def removeDot (maze : List GoString) (row col : Int) : Option (List GoString) :=
  (idx maze row).bind (fun line =>
    (sliceTo line col).bind (fun pre =>
      (sliceFrom line (col + 1)).bind (fun post =>
        setIdx maze row (pre ++ [32] ++ post))))

/-- Go `movePlayer` (main.go 169-187).  The statement `go processPill()` is recorded by
incrementing `pillCalls`; the goroutine itself runs outside the tick.  `numDots--`, `score++`
and `score += 10` are integer operations without wraparound. -/
def movePlayer (g : Game) (dir : String) : Option Game :=
  (makeMove g.maze g.player.row g.player.col dir).bind (fun p =>
    let g1 : Game := { g with player := { g.player with row := p.1, col := p.2 } }
    (cellAt g1.maze g1.player.row g1.player.col).bind (fun cell =>
      if cell = 46 then
        (removeDot g1.maze g1.player.row g1.player.col).bind (fun m =>
          some { g1 with numDots := g1.numDots - 1, score := g1.score + 1, maze := m })
      else if cell = 88 then
        (removeDot g1.maze g1.player.row g1.player.col).bind (fun m =>
          some { g1 with score := g1.score + 10, maze := m, pillCalls := g1.pillCalls + 1 })
      else some g1))

/-- Go `drawDirection` (main.go 220-230) as a function of the value `rand.Intn(4)` returned;
a key missing from the map yields the empty string. -/
def drawDirection (dir : Nat) : String :=
  if dir = 0 then "UP"
  else if dir = 1 then "DOWN"
  else if dir = 2 then "RIGHT"
  else if dir = 3 then "LEFT"
  else ""

/-- The loop of `moveGhosts` over the ghosts from index `i` on; `rnd k` is the value the
`k`-th call of `rand.Intn(4)` returns. -/
def moveGhostsFrom (maze : List GoString) (rnd : Nat → Nat) : Nat → List Ghost → Option (List Ghost)
  | _, [] => some []
  | i, gh :: rest =>
    (makeMove maze gh.position.row gh.position.col (drawDirection (rnd i))).bind (fun p =>
      (moveGhostsFrom maze rnd (i + 1) rest).bind (fun rest2 =>
        some ({ gh with position := { gh.position with row := p.1, col := p.2 } } :: rest2)))

/-- Go `moveGhosts` (main.go 232-237). -/
def moveGhosts (g : Game) (rnd : Nat → Nat) : Option Game :=
  (moveGhostsFrom g.maze rnd 0 g.ghosts).bind (fun gs => some { g with ghosts := gs })

/-- The body of the collision loop for one ghost (main.go 368-377); rendering and the
pause are omitted. -/
def collideOne (g : Game) (gh : Ghost) : Game :=
  if g.player.row = gh.position.row ∧ g.player.col = gh.position.col then
    let g1 : Game := { g with lives := g.lives - 1 }
    if g1.lives ≠ 0 then
      { g1 with player := { g1.player with row := g1.player.startRow, col := g1.player.startCol } }
    else g1
  else g

/-- The collision phase of the game loop (main.go 366-378): the loop over all ghosts. -/
def collide (g : Game) : Game :=
  g.ghosts.foldl collideOne g

/-- The input step of the game loop (main.go 356-363): `none` is the `default` branch of the
`select` (no pending event). -/
def inputStep (g : Game) (inp : Option String) : Option Game :=
  match inp with
  | none => some g
  | some s =>
    let g1 : Game := if s = "ESC" then { g with lives := 0 } else g
    movePlayer g1 s

/-- One iteration of the game loop from the input step to the end of the collision loop
(main.go 356-378). -/
def tick (g : Game) (inp : Option String) (rnd : Nat → Nat) : Option Game :=
  (inputStep g inp).bind (fun g1 =>
    (moveGhosts g1 rnd).bind (fun g2 => some (collide g2)))

/-- The loop's exit test `numDots == 0 || lives <= 0` (main.go 381). -/
def gameOver (g : Game) : Bool :=
  decide (g.numDots = 0) || decide (g.lives ≤ 0)

/-! ## Well-formedness of a maze and of positions -/

/-- Go `len(maze[0])` for a non-empty maze (0 for the empty maze). -/
def width (maze : List GoString) : Nat :=
  match maze with
  | [] => 0
  | row0 :: _ => row0.length

/-- All rows have the length of the first row. -/
def rectangular (maze : List GoString) : Prop :=
  ∀ line ∈ maze, line.length = width maze

instance (maze : List GoString) : Decidable (rectangular maze) := by
  unfold rectangular; infer_instance

/-- Position `(r, c)` is a cell of the grid. -/
def inBounds (maze : List GoString) (r c : Int) : Prop :=
  0 ≤ r ∧ r < (maze.length : Int) ∧ 0 ≤ c ∧ c < (width maze : Int)

instance (maze : List GoString) (r c : Int) : Decidable (inBounds maze r c) := by
  unfold inBounds; infer_instance

/-- The candidate cell as the specification words it: one axis moved by one step, modulo
the grid size on that axis; any other direction string leaves the position alone. -/
def wrapCandidate (maze : List GoString) (r c : Int) (dir : String) : Int × Int :=
  if dir = "UP" then ((r - 1) % (maze.length : Int), c)
  else if dir = "DOWN" then ((r + 1) % (maze.length : Int), c)
  else if dir = "RIGHT" then (r, (c + 1) % (width maze : Int))
  else if dir = "LEFT" then (r, (c - 1) % (width maze : Int))
  else (r, c)

/-- The opposite of each of the four directions. -/
def opposite (dir : String) : String :=
  if dir = "UP" then "DOWN"
  else if dir = "DOWN" then "UP"
  else if dir = "LEFT" then "RIGHT"
  else if dir = "RIGHT" then "LEFT"
  else dir

/-- A move from `(r, c)` in direction `dir` is discarded: its candidate cell is a wall. -/
def blocked (maze : List GoString) (r c : Int) (dir : String) : Prop :=
  cellAt maze (wrapCandidate maze r c dir).1 (wrapCandidate maze r c dir).2 = some 35

instance (maze : List GoString) (r c : Int) (dir : String) : Decidable (blocked maze r c dir) := by
  unfold blocked; infer_instance

/-! ## Loading: `for col, char := range line` and `loadMaze` -/

/-- Go's decoding of the first rune of a non-empty string `b0 :: t` whose first byte is not
ASCII (the runtime's `decoderune`): the rune and the number of bytes it takes.  An invalid
or truncated sequence is the replacement rune 0xFFFD, one byte wide. -/
def decodeRune (b0 : Nat) (t : List Nat) : Nat × Nat :=
  if 0xC0 ≤ b0 ∧ b0 < 0xE0 then
    match t with
    | b1 :: _ =>
      if 0x80 ≤ b1 ∧ b1 ≤ 0xBF then
        let r := ((b0 &&& 0x1F) <<< 6) ||| (b1 &&& 0x3F)
        if 0x7F < r then (r, 2) else (0xFFFD, 1)
      else (0xFFFD, 1)
    | _ => (0xFFFD, 1)
  else if 0xE0 ≤ b0 ∧ b0 < 0xF0 then
    match t with
    | b1 :: b2 :: _ =>
      if (0x80 ≤ b1 ∧ b1 ≤ 0xBF) ∧ (0x80 ≤ b2 ∧ b2 ≤ 0xBF) then
        let r := ((b0 &&& 0x0F) <<< 12) ||| ((b1 &&& 0x3F) <<< 6) ||| (b2 &&& 0x3F)
        if 0x7FF < r ∧ ¬ (0xD800 ≤ r ∧ r ≤ 0xDFFF) then (r, 3) else (0xFFFD, 1)
      else (0xFFFD, 1)
    | _ => (0xFFFD, 1)
  else if 0xF0 ≤ b0 ∧ b0 < 0xF8 then
    match t with
    | b1 :: b2 :: b3 :: _ =>
      if (0x80 ≤ b1 ∧ b1 ≤ 0xBF) ∧ (0x80 ≤ b2 ∧ b2 ≤ 0xBF) ∧ (0x80 ≤ b3 ∧ b3 ≤ 0xBF) then
        let r := ((b0 &&& 0x07) <<< 18) ||| ((b1 &&& 0x3F) <<< 12) ||| ((b2 &&& 0x3F) <<< 6)
          ||| (b3 &&& 0x3F)
        if 0xFFFF < r ∧ r ≤ 0x10FFFF then (r, 4) else (0xFFFD, 1)
      else (0xFFFD, 1)
    | _ => (0xFFFD, 1)
  else (0xFFFD, 1)

/-- Go `for col, char := range line`: the pairs (byte offset, rune) the loop visits.
`col` is the offset of the head of the list; `skip` bytes at the head belong to the rune
decoded last and start no rune of their own.  A byte below 0x80 is its own rune. -/
def rangeFrom : Nat → Nat → List Nat → List (Nat × Nat)
  | _, _, [] => []
  | col, skip + 1, _ :: t => rangeFrom (col + 1) skip t
  | col, 0, b0 :: t =>
    if b0 < 0x80 then (col, b0) :: rangeFrom (col + 1) 0 t
    else (col, (decodeRune b0 t).1) :: rangeFrom (col + 1) ((decodeRune b0 t).2 - 1) t

/-- The pairs (byte offset, rune) of `range line`. -/
def rangeString (line : GoString) : List (Nat × Nat) :=
  rangeFrom 0 0 line

/-- The `switch char` of `loadMaze` (main.go 206-213) at row `row`, byte offset `col`. -/
def loadCell (row : Nat) (g : Game) (cr : Nat × Nat) : Game :=
  if cr.2 = 80 then
    { g with player := ⟨(row : Int), (cr.1 : Int), (row : Int), (cr.1 : Int)⟩ }
  else if cr.2 = 71 then
    { g with ghosts := g.ghosts ++
        [⟨⟨(row : Int), (cr.1 : Int), (row : Int), (cr.1 : Int)⟩, GhostStatus.Normal⟩] }
  else if cr.2 = 46 then { g with numDots := g.numDots + 1 }
  else g

/-- The loop `for row, line := range maze` of `loadMaze` from row `row` on. -/
def loadRows : Nat → List GoString → Game → Game
  | _, [], g => g
  | row, line :: rest, g => loadRows (row + 1) rest ((rangeString line).foldl (loadCell row) g)

/-- Go `loadMaze` (main.go 189-218) once the file is open: `lines` are the lines the scanner
yields; they are appended to `maze`, then the whole maze is scanned. -/
def loadMaze (g : Game) (lines : List GoString) : Game :=
  let g1 : Game := { g with maze := g.maze ++ lines }
  loadRows 0 g1.maze g1

/-- The package-level variables at program start: zero values, and `lives = 3`. -/
def initGame : Game :=
  { maze := [], ghosts := [], player := ⟨0, 0, 0, 0⟩, score := 0, numDots := 0, lives := 3,
    pillCalls := 0 }

/-- The number of `'.'` bytes in the maze. -/
def dotCount (maze : List GoString) : Nat :=
  (maze.map (fun line => line.count 46)).sum

/-! ## The input reader -/

/-- Go `readInput` (main.go 105-131) for a successful `os.Stdin.Read` that stored `bytes`
in the 100-byte zeroed buffer (`cnt = len(bytes)`). -/
def readInput (bytes : List Nat) : String :=
  let buffer := bytes ++ List.replicate (100 - bytes.length) 0
  let cnt := bytes.length
  if cnt = 1 ∧ buffer.getD 0 0 = 0x1b then "ESC"
  else if cnt ≥ 3 then
    if buffer.getD 0 0 = 0x1b ∧ buffer.getD 1 0 = 91 then
      if buffer.getD 2 0 = 65 then "UP"
      else if buffer.getD 2 0 = 66 then "DOWN"
      else if buffer.getD 2 0 = 67 then "RIGHT"
      else if buffer.getD 2 0 = 68 then "LEFT"
      else ""
    else ""
  else ""

/-- One iteration of the input goroutine (main.go 340-347): `some bytes` is a successful
read, `none` a failed one.  The result is the list of strings sent on the channel, or
`none` when `log.Panicln` panics. -/
def readerIteration (read : Option (List Nat)) : Option (List String) :=
  match read with
  | none => none
  | some bytes => some [readInput bytes]

/-! ## Operations of a tick, for runs -/

/-- One operation of the game loop on the game variables: a bare `movePlayer` call, the input
step (ESC test, then `movePlayer`), `moveGhosts`, and the collision loop. -/
inductive Op where
  | move (dir : String)
  | input (inp : Option String)
  | ghosts (rnd : Nat → Nat)
  | collisions

/-- Run one operation. -/
def applyOp (g : Game) : Op → Option Game
  | Op.move dir => movePlayer g dir
  | Op.input inp => inputStep g inp
  | Op.ghosts rnd => moveGhosts g rnd
  | Op.collisions => some (collide g)

/-- Run a sequence of operations, stopping at the first panic. -/
def runOps : Game → List Op → Option Game
  | g, [] => some g
  | g, op :: rest => (applyOp g op).bind (fun g1 => runOps g1 rest)

/-- The maze with the byte at row `r`, offset `c` replaced by a space (no change when the
position is not a cell). -/
def clearAt (maze : List GoString) (r c : Int) : List GoString :=
  maze.set r.toNat (((maze[r.toNat]?).getD []).set c.toNat 32)

/-- The game variables after `movePlayer` resolved the move to `p` and read `cell` there. -/
def afterMove (g : Game) (p : Int × Int) (cell : Nat) : Game :=
  if cell = 46 then
    { g with player := { g.player with row := p.1, col := p.2 },
             numDots := g.numDots - 1, score := g.score + 1, maze := clearAt g.maze p.1 p.2 }
  else if cell = 88 then
    { g with player := { g.player with row := p.1, col := p.2 },
             score := g.score + 10, maze := clearAt g.maze p.1 p.2,
             pillCalls := g.pillCalls + 1 }
  else { g with player := { g.player with row := p.1, col := p.2 } }

/-- The collision test of the game loop:
`player.row == g.position.row && player.col == g.position.col`. -/
def onGhost (s : Sprite) (gh : Ghost) : Prop :=
  s.row = gh.position.row ∧ s.col = gh.position.col

instance (s : Sprite) (gh : Ghost) : Decidable (onGhost s gh) := by
  unfold onGhost; infer_instance

/-- A ghost stands on the start cell of the sprite. -/
def onStart (s : Sprite) (gh : Ghost) : Prop :=
  s.startRow = gh.position.row ∧ s.startCol = gh.position.col

instance (s : Sprite) (gh : Ghost) : Decidable (onStart s gh) := by
  unfold onStart; infer_instance

/-- A ghost at `(r, c)` (started there), in Normal mode. -/
def ghostAt (r c : Int) : Ghost :=
  ⟨⟨r, c, r, c⟩, GhostStatus.Normal⟩

/-- Lives 3, the player on its start cell (1, 1), two ghosts on that cell. -/
def twoGhostsOnStart : Game :=
  { maze := [[32, 32, 32], [32, 32, 32]], ghosts := [ghostAt 1 1, ghostAt 1 1],
    player := ⟨1, 1, 1, 1⟩, score := 0, numDots := 0, lives := 3, pillCalls := 0 }

/-- Lives 3, the player on (0, 2) with start cell (1, 1), one ghost on the player and a
second ghost on the start cell. -/
def ghostOnRespawn : Game :=
  { maze := [[32, 32, 32], [32, 32, 32]], ghosts := [ghostAt 0 2, ghostAt 1 1],
    player := ⟨0, 2, 1, 1⟩, score := 0, numDots := 0, lives := 3, pillCalls := 0 }

/-- Lives 1, the player on (0, 2), two ghosts on the player. -/
def lastLifeTwoGhosts : Game :=
  { maze := [[32, 32, 32], [32, 32, 32]], ghosts := [ghostAt 0 2, ghostAt 0 2],
    player := ⟨0, 2, 1, 1⟩, score := 0, numDots := 0, lives := 1, pillCalls := 0 }

/-- Lives 3, the player on (0, 2) with start cell (1, 1), one ghost on the player and one
elsewhere. -/
def oneGhostHit : Game :=
  { maze := [[32, 32, 32], [32, 32, 32]], ghosts := [ghostAt 0 0, ghostAt 0 2],
    player := ⟨0, 2, 1, 1⟩, score := 0, numDots := 0, lives := 3, pillCalls := 0 }

/-- The one-row maze "." loaded from a file without a player marker: the player keeps the
zero position (0, 0), which holds a dot. -/
def dotUnderPlayer : Game :=
  loadMaze initGame [[46]]

/-- The one-row maze "X" loaded from a file without a player marker. -/
def pillUnderPlayer : Game :=
  loadMaze initGame [[88]]

/-- The maze "#####", "#P.X#", "#G .#", "#####". -/
def demoMaze : List GoString :=
  [[35, 35, 35, 35, 35], [35, 80, 46, 88, 35], [35, 71, 32, 46, 35], [35, 35, 35, 35, 35]]

/-- The game variables after `loadMaze` read `demoMaze` at program start: the player on
(1, 1), one ghost on (2, 1), two dots. -/
def demoGame : Game :=
  loadMaze initGame demoMaze

/-- A run before the pickup: the ghost on (2, 1) draws 1 (DOWN), which the wall at (3, 1)
blocks, then the collision loop runs without a collision. -/
def demoPrefix : List Op :=
  [Op.ghosts (fun _ => 1), Op.collisions]

/-- The game after `demoPrefix`. -/
def demoBeforeRight : Game :=
  (runOps demoGame demoPrefix).getD demoGame

/-- The game after the player then moved RIGHT from (1, 1) onto the dot at (1, 2). -/
def demoAfterRight : Game :=
  (movePlayer demoBeforeRight "RIGHT").getD demoBeforeRight

/-- The operations of one tick with the event "RIGHT" and every ghost drawing 0 (UP). -/
def demoOps : List Op :=
  [Op.input (some "RIGHT"), Op.ghosts (fun _ => 0), Op.collisions]

/-- The game after that tick. -/
def demoAfterTick : Game :=
  (runOps demoGame demoOps).getD demoGame

/-- With lives left the player stands on its start cell. -/
def respawned (g : Game) : Prop :=
  0 < g.lives → g.player.row = g.player.startRow ∧ g.player.col = g.player.startCol

/-- The precondition of a tick: a non-empty rectangular maze of width at least 1, and the
player, its start cell and every ghost on cells of the grid. -/
def wellFormed (g : Game) : Prop :=
  g.maze ≠ [] ∧ rectangular g.maze ∧ 1 ≤ width g.maze ∧
  inBounds g.maze g.player.row g.player.col ∧
  inBounds g.maze g.player.startRow g.player.startCol ∧
  ∀ gh ∈ g.ghosts, inBounds g.maze gh.position.row gh.position.col

instance (g : Game) : Decidable (wellFormed g) := by
  unfold wellFormed; infer_instance

/-- The invariant of the dot counter: `numDots` is the number of dot cells of the maze. -/
def dotsCounted (g : Game) : Prop :=
  g.numDots = (dotCount g.maze : Int)

instance (g : Game) : Decidable (dotsCounted g) := by
  unfold dotsCounted; infer_instance

/-! ## Indexing lemmas -/

theorem idx_of_lt {α : Type} (xs : List α) (i : Int) (h0 : 0 ≤ i) (h1 : i < (xs.length : Int)) :
    ∃ x, idx xs i = some x ∧ x ∈ xs := by
  have hlt : i.toNat < xs.length := by omega
  refine ⟨xs[i.toNat], ?_, List.getElem_mem hlt⟩
  unfold idx
  rw [if_neg (by omega)]
  exact List.getElem?_eq_getElem hlt

theorem idx_some_iff {α : Type} (xs : List α) (i : Int) (x : α) :
    idx xs i = some x ↔ 0 ≤ i ∧ xs[i.toNat]? = some x := by
  unfold idx
  by_cases h : i < 0
  · simp only [h, if_true]
    constructor
    · intro h2; cases h2
    · intro h2; omega
  · simp only [h, if_false]
    constructor
    · intro h2; exact ⟨by omega, h2⟩
    · intro h2; exact h2.2

theorem idx_bounds {α : Type} (xs : List α) (i : Int) (x : α) (h : idx xs i = some x) :
    0 ≤ i ∧ i < (xs.length : Int) ∧ x ∈ xs := by
  rw [idx_some_iff] at h
  obtain ⟨h0, h1⟩ := h
  have h2 := List.getElem?_eq_some.mp h1
  obtain ⟨hlt, hx⟩ := h2
  refine ⟨h0, by omega, ?_⟩
  rw [← hx]
  exact List.getElem_mem hlt

theorem idx_zero_of_ne_nil (maze : List GoString) (hne : maze ≠ []) :
    ∃ row0, idx maze 0 = some row0 ∧ row0.length = width maze := by
  cases maze with
  | nil => exact absurd rfl hne
  | cons a t => exact ⟨a, by simp [idx], rfl⟩

theorem cellAt_of_inBounds (maze : List GoString) (r c : Int)
    (hrect : rectangular maze) (hin : inBounds maze r c) :
    ∃ cell, cellAt maze r c = some cell := by
  obtain ⟨h0, h1, h2, h3⟩ := hin
  obtain ⟨line, hl, hmem⟩ := idx_of_lt maze r h0 h1
  have hw := hrect line hmem
  obtain ⟨cell, hc, _⟩ := idx_of_lt line c h2 (by rw [hw]; exact h3)
  exact ⟨cell, by simp [cellAt, hl, hc]⟩

theorem inBounds_of_cellAt (maze : List GoString) (r c : Int) (cell : Nat)
    (hrect : rectangular maze) (h : cellAt maze r c = some cell) : inBounds maze r c := by
  unfold cellAt at h
  cases hl : idx maze r with
  | none => simp [hl] at h
  | some line =>
    simp [hl] at h
    obtain ⟨a0, a1, a2⟩ := idx_bounds maze r line hl
    obtain ⟨b0, b1, _⟩ := idx_bounds line c cell h
    rw [hrect line a2] at b1
    exact ⟨a0, a1, b0, b1⟩

/-! ## makeMove -/

theorem wrapCandidate_inBounds (maze : List GoString) (r c : Int) (dir : String)
    (hin : inBounds maze r c) :
    inBounds maze (wrapCandidate maze r c dir).1 (wrapCandidate maze r c dir).2 := by
  obtain ⟨h0, h1, h2, h3⟩ := hin
  have hR : (0 : Int) < (maze.length : Int) := by omega
  have hW : (0 : Int) < (width maze : Int) := by omega
  unfold wrapCandidate
  split_ifs
  · exact ⟨Int.emod_nonneg _ (by omega), Int.emod_lt_of_pos _ hR, h2, h3⟩
  · exact ⟨Int.emod_nonneg _ (by omega), Int.emod_lt_of_pos _ hR, h2, h3⟩
  · exact ⟨h0, h1, Int.emod_nonneg _ (by omega), Int.emod_lt_of_pos _ hW⟩
  · exact ⟨h0, h1, Int.emod_nonneg _ (by omega), Int.emod_lt_of_pos _ hW⟩
  · exact ⟨h0, h1, h2, h3⟩

theorem emod_pred (a n : Int) (h0 : 0 ≤ a) (h1 : a < n) :
    (a - 1) % n = if a - 1 < 0 then n - 1 else a - 1 := by
  split_ifs with h
  · have ha : a = 0 := by omega
    subst ha
    have : ((0 : Int) - 1) % n = (n - 1) % n := by
      rw [← Int.add_emod_self]; congr 1; ring
    rw [this]
    exact Int.emod_eq_of_lt (by omega) (by omega)
  · exact Int.emod_eq_of_lt (by omega) (by omega)

theorem emod_succ (a n : Int) (h0 : 0 ≤ a) (h1 : a < n) :
    (a + 1) % n = if a + 1 = n then 0 else a + 1 := by
  split_ifs with h
  · rw [h]; exact Int.emod_self
  · exact Int.emod_eq_of_lt (by omega) (by omega)

/-- On a non-empty maze and an in-bounds position the code of `makeMove` computes the
modular candidate, reads its cell, and returns the old position when it is a wall. -/
theorem makeMove_eq (maze : List GoString) (r c : Int) (dir : String)
    (hne : maze ≠ []) (hin : inBounds maze r c) :
    makeMove maze r c dir =
      (cellAt maze (wrapCandidate maze r c dir).1 (wrapCandidate maze r c dir).2).bind
        (fun cell => if cell = 35 then some (r, c) else some (wrapCandidate maze r c dir)) := by
  obtain ⟨h0, h1, h2, h3⟩ := hin
  obtain ⟨row0, hrow0, hlen⟩ := idx_zero_of_ne_nil maze hne
  unfold makeMove wrapCandidate
  by_cases hU : dir = "UP"
  · simp only [if_pos hU, Option.some_bind, emod_pred r _ h0 h1]
  · by_cases hD : dir = "DOWN"
    · simp only [if_neg hU, if_pos hD, Option.some_bind, emod_succ r _ h0 h1]
    · by_cases hR : dir = "RIGHT"
      · simp only [if_neg hU, if_neg hD, if_pos hR, Option.some_bind, emod_succ c _ h2 h3,
          hrow0, hlen]
      · by_cases hL : dir = "LEFT"
        · simp only [if_neg hU, if_neg hD, if_neg hR, if_pos hL, emod_pred c _ h2 h3, hrow0,
            hlen]
          split_ifs <;> simp [hlen]
        · simp only [if_neg hU, if_neg hD, if_neg hR, if_neg hL, Option.some_bind]

theorem makeMove_eq_ite (maze : List GoString) (r c : Int) (dir : String)
    (hne : maze ≠ []) (hrect : rectangular maze) (hin : inBounds maze r c) :
    makeMove maze r c dir =
      some (if cellAt maze (wrapCandidate maze r c dir).1 (wrapCandidate maze r c dir).2 = some 35
        then (r, c) else wrapCandidate maze r c dir) := by
  rw [makeMove_eq maze r c dir hne hin]
  obtain ⟨cell, hcell⟩ :=
    cellAt_of_inBounds maze _ _ hrect (wrapCandidate_inBounds maze r c dir hin)
  rw [hcell]
  by_cases h : cell = 35
  · simp [h]
  · simp [h]

theorem emod_pred_succ (a n : Int) (h0 : 0 ≤ a) (h1 : a < n) : ((a - 1) % n + 1) % n = a := by
  rw [emod_pred a n h0 h1]
  split_ifs with h
  · have ha : a = 0 := by omega
    subst ha
    have : n - 1 + 1 = n := by ring
    rw [this]
    exact Int.emod_self
  · have : a - 1 + 1 = a := by ring
    rw [this]
    exact Int.emod_eq_of_lt h0 h1

theorem emod_succ_pred (a n : Int) (h0 : 0 ≤ a) (h1 : a < n) : ((a + 1) % n - 1) % n = a := by
  rw [emod_succ a n h0 h1]
  split_ifs with h
  · have : ((0 : Int) - 1) % n = (n - 1) % n := by
      rw [← Int.add_emod_self]; congr 1; ring
    rw [this, Int.emod_eq_of_lt (by omega) (by omega)]
    omega
  · have : a + 1 - 1 = a := by ring
    rw [this]
    exact Int.emod_eq_of_lt h0 h1

theorem wrapCandidate_opposite (maze : List GoString) (r c : Int) (dir : String)
    (hin : inBounds maze r c)
    (hdir : dir = "UP" ∨ dir = "DOWN" ∨ dir = "LEFT" ∨ dir = "RIGHT") :
    wrapCandidate maze (wrapCandidate maze r c dir).1 (wrapCandidate maze r c dir).2
      (opposite dir) = (r, c) := by
  obtain ⟨h0, h1, h2, h3⟩ := hin
  rcases hdir with h | h | h | h <;> subst h
  · simp [wrapCandidate, opposite, emod_pred_succ r _ h0 h1]
  · simp [wrapCandidate, opposite, emod_succ_pred r _ h0 h1]
  · simp [wrapCandidate, opposite, emod_pred_succ c _ h2 h3]
  · simp [wrapCandidate, opposite, emod_succ_pred c _ h2 h3]

theorem makeMove_total (maze : List GoString) (r c : Int) (dir : String)
    (hne : maze ≠ []) (hrect : rectangular maze) (hin : inBounds maze r c) :
    ∃ p cell, makeMove maze r c dir = some p ∧ inBounds maze p.1 p.2 ∧
      cellAt maze p.1 p.2 = some cell := by
  have hcin := wrapCandidate_inBounds maze r c dir hin
  rw [makeMove_eq_ite maze r c dir hne hrect hin]
  split_ifs
  · obtain ⟨cell0, hcell0⟩ := cellAt_of_inBounds maze r c hrect hin
    exact ⟨(r, c), cell0, rfl, hin, hcell0⟩
  · obtain ⟨cell, hcell⟩ := cellAt_of_inBounds maze _ _ hrect hcin
    exact ⟨_, cell, rfl, hcin, hcell⟩

/-! ## Claims about makeMove -/

/-- C1 (fails as stated): on the one-row maze "##" a move RIGHT from the in-bounds cell
(0, 0) is discarded and `makeMove` returns (0, 0), which is a wall. -/
theorem makeMove_returns_wall_cex :
    ([[35, 35]] : List GoString) ≠ [] ∧ rectangular [[35, 35]] ∧ inBounds [[35, 35]] 0 0 ∧
      makeMove [[35, 35]] 0 0 "RIGHT" = some (0, 0) ∧ cellAt [[35, 35]] 0 0 = some 35 := by
  decide

/-- C1 (amended): on a non-empty rectangular maze, from an in-bounds position and for every
direction string, `makeMove` returns an in-bounds cell that is either the original position
or not a wall; it is not a wall whenever the starting cell is not a wall. -/
theorem makeMove_not_wall (maze : List GoString) (r c : Int) (dir : String)
    (hne : maze ≠ []) (hrect : rectangular maze) (hin : inBounds maze r c) :
    ∃ p cell, makeMove maze r c dir = some p ∧ inBounds maze p.1 p.2 ∧
      cellAt maze p.1 p.2 = some cell ∧ (p = (r, c) ∨ cell ≠ 35) ∧
      (cellAt maze r c ≠ some 35 → cell ≠ 35) := by
  have hcin := wrapCandidate_inBounds maze r c dir hin
  obtain ⟨cell, hcell⟩ := cellAt_of_inBounds maze _ _ hrect hcin
  obtain ⟨cell0, hcell0⟩ := cellAt_of_inBounds maze r c hrect hin
  rw [makeMove_eq_ite maze r c dir hne hrect hin, hcell]
  by_cases h : cell = 35
  · refine ⟨(r, c), cell0, by simp [h], hin, hcell0, Or.inl rfl, ?_⟩
    intro hne0 h0
    exact hne0 (by rw [hcell0, h0])
  · refine ⟨wrapCandidate maze r c dir, cell, by simp [h], hcin, hcell, Or.inr h, fun _ => h⟩

/-- Witness for C1 (amended): the player's start cell (1, 1) of `demoMaze`, direction DOWN. -/
theorem makeMove_not_wall_witness :
    demoMaze ≠ [] ∧ rectangular demoMaze ∧ inBounds demoMaze 1 1 ∧
    ∃ p cell, makeMove demoMaze 1 1 "DOWN" = some p ∧ inBounds demoMaze p.1 p.2 ∧
      cellAt demoMaze p.1 p.2 = some cell ∧ (p = (1, 1) ∨ cell ≠ 35) ∧
      (cellAt demoMaze 1 1 ≠ some 35 → cell ≠ 35) :=
  ⟨by decide, by decide, by decide,
    makeMove_not_wall demoMaze 1 1 "DOWN" (by decide) (by decide) (by decide)⟩

/-- C2: on a non-empty rectangular maze with R rows of width W and an in-bounds (r, c), the
candidate of `makeMove` is ((r-1) mod R, c) for UP, ((r+1) mod R, c) for DOWN,
(r, (c+1) mod W) for RIGHT and (r, (c-1) mod W) for LEFT; `makeMove` returns the candidate
when its cell is not a wall and (r, c) otherwise; and the candidates at the four edges are
row R-1, row 0, column 0 and column W-1. -/
theorem makeMove_wraps_modulo (maze : List GoString) (r c : Int)
    (hne : maze ≠ []) (hrect : rectangular maze) (hin : inBounds maze r c) :
    (makeMove maze r c "UP" =
        some (if cellAt maze ((r - 1) % (maze.length : Int)) c = some 35 then (r, c)
          else ((r - 1) % (maze.length : Int), c))) ∧
    (makeMove maze r c "DOWN" =
        some (if cellAt maze ((r + 1) % (maze.length : Int)) c = some 35 then (r, c)
          else ((r + 1) % (maze.length : Int), c))) ∧
    (makeMove maze r c "RIGHT" =
        some (if cellAt maze r ((c + 1) % (width maze : Int)) = some 35 then (r, c)
          else (r, (c + 1) % (width maze : Int)))) ∧
    (makeMove maze r c "LEFT" =
        some (if cellAt maze r ((c - 1) % (width maze : Int)) = some 35 then (r, c)
          else (r, (c - 1) % (width maze : Int)))) ∧
    (r = 0 → (r - 1) % (maze.length : Int) = (maze.length : Int) - 1) ∧
    (r = (maze.length : Int) - 1 → (r + 1) % (maze.length : Int) = 0) ∧
    (c = (width maze : Int) - 1 → (c + 1) % (width maze : Int) = 0) ∧
    (c = 0 → (c - 1) % (width maze : Int) = (width maze : Int) - 1) := by
  have hU := makeMove_eq_ite maze r c "UP" hne hrect hin
  have hD := makeMove_eq_ite maze r c "DOWN" hne hrect hin
  have hR := makeMove_eq_ite maze r c "RIGHT" hne hrect hin
  have hL := makeMove_eq_ite maze r c "LEFT" hne hrect hin
  obtain ⟨h0, h1, h2, h3⟩ := hin
  refine ⟨by simpa [wrapCandidate] using hU, by simpa [wrapCandidate] using hD,
    by simpa [wrapCandidate] using hR, by simpa [wrapCandidate] using hL, ?_, ?_, ?_, ?_⟩
  · intro h; rw [emod_pred r _ h0 h1]; simp [h]
  · intro h; rw [emod_succ r _ h0 h1]; simp [h]
  · intro h; rw [emod_succ c _ h2 h3]; simp [h]
  · intro h; rw [emod_pred c _ h2 h3]; simp [h]

/-- Witness for C2: the cell (1, 1) of `demoMaze`, direction RIGHT. -/
theorem makeMove_wraps_modulo_witness :
    demoMaze ≠ [] ∧ rectangular demoMaze ∧ inBounds demoMaze 1 1 ∧
    makeMove demoMaze 1 1 "RIGHT" =
      some (if cellAt demoMaze 1 ((1 + 1) % (width demoMaze : Int)) = some 35 then (1, 1)
        else (1, (1 + 1) % (width demoMaze : Int))) :=
  ⟨by decide, by decide, by decide,
    (makeMove_wraps_modulo demoMaze 1 1 (by decide) (by decide) (by decide)).2.2.1⟩

/-- C3: on a non-empty rectangular maze, from an in-bounds position p and for each of the four
directions d, `makeMove` with d and then with the opposite of d both return, and the second
result is p unless one of the two moves was discarded because its candidate cell is a wall. -/
theorem makeMove_opposite_returns (maze : List GoString) (r c : Int) (dir : String)
    (hne : maze ≠ []) (hrect : rectangular maze) (hin : inBounds maze r c)
    (hdir : dir = "UP" ∨ dir = "DOWN" ∨ dir = "LEFT" ∨ dir = "RIGHT") :
    ∃ q p, makeMove maze r c dir = some q ∧ makeMove maze q.1 q.2 (opposite dir) = some p ∧
      (¬ blocked maze r c dir → ¬ blocked maze q.1 q.2 (opposite dir) → p = (r, c)) := by
  have hcin := wrapCandidate_inBounds maze r c dir hin
  have h1 := makeMove_eq_ite maze r c dir hne hrect hin
  by_cases hb : blocked maze r c dir
  · have hb2 := hb
    unfold blocked at hb2
    rw [if_pos hb2] at h1
    exact ⟨(r, c), _, h1, makeMove_eq_ite maze r c (opposite dir) hne hrect hin,
      fun h => absurd hb h⟩
  · have hb2 := hb
    unfold blocked at hb2
    rw [if_neg hb2] at h1
    refine ⟨wrapCandidate maze r c dir, _, h1,
      makeMove_eq_ite maze _ _ (opposite dir) hne hrect hcin, ?_⟩
    intro _ hb3
    unfold blocked at hb3
    rw [if_neg hb3]
    exact wrapCandidate_opposite maze r c dir hin hdir

/-- Witness for C3: RIGHT then LEFT from the cell (1, 1) of `demoMaze`. -/
theorem makeMove_opposite_returns_witness :
    demoMaze ≠ [] ∧ rectangular demoMaze ∧ inBounds demoMaze 1 1 ∧
    ∃ q p, makeMove demoMaze 1 1 "RIGHT" = some q ∧
      makeMove demoMaze q.1 q.2 (opposite "RIGHT") = some p ∧
      (¬ blocked demoMaze 1 1 "RIGHT" →
        ¬ blocked demoMaze q.1 q.2 (opposite "RIGHT") → p = (1, 1)) :=
  ⟨by decide, by decide, by decide,
    makeMove_opposite_returns demoMaze 1 1 "RIGHT" (by decide) (by decide) (by decide)
      (by decide)⟩

/-! ## removeDot and movePlayer -/

theorem removeDot_of_cellAt (maze : List GoString) (r c : Int) (x : Nat)
    (h : cellAt maze r c = some x) : removeDot maze r c = some (clearAt maze r c) := by
  unfold cellAt at h
  cases hl : idx maze r with
  | none => simp [hl] at h
  | some line =>
    simp only [hl, Option.some_bind] at h
    obtain ⟨a0, a1, _⟩ := idx_bounds maze r line hl
    obtain ⟨b0, b1, _⟩ := idx_bounds line c x h
    have hl2 : maze[r.toNat]? = some line := ((idx_some_iff maze r line).mp hl).2
    have hc : c.toNat < line.length := by omega
    have hc1 : (c + 1).toNat = c.toNat + 1 := by omega
    unfold removeDot clearAt sliceTo sliceFrom setIdx
    simp only [hl, Option.some_bind, hl2, Option.getD_some]
    rw [if_pos ⟨b0, by omega⟩]
    simp only [Option.some_bind]
    rw [if_pos ⟨by omega, by omega⟩]
    simp only [Option.some_bind]
    have e : List.set line c.toNat 32 =
        List.take c.toNat line ++ [32] ++ List.drop (c.toNat + 1) line := by
      rw [List.set_eq_take_append_cons_drop, if_pos hc]; simp
    rw [if_pos ⟨a0, a1⟩, hc1, e]

theorem cellAt_eq_getElem (maze : List GoString) (r c : Int) (h0 : 0 ≤ r) (h1 : 0 ≤ c) :
    cellAt maze r c = (maze[r.toNat]?).bind (fun ln => ln[c.toNat]?) := by
  unfold cellAt idx
  rw [if_neg (by omega)]
  cases maze[r.toNat]? with
  | none => rfl
  | some line => simp only [Option.some_bind]; rw [if_neg (by omega)]

theorem cellAt_neg (maze : List GoString) (r c : Int) (h : r < 0 ∨ c < 0) :
    cellAt maze r c = none := by
  unfold cellAt idx
  by_cases hr : r < 0
  · simp [hr]
  · have hc : c < 0 := by omega
    simp only [hr, if_false]
    cases maze[r.toNat]? with
    | none => rfl
    | some line => simp [hc]

theorem cellAt_clearAt_self (maze : List GoString) (r c : Int) (x : Nat)
    (h : cellAt maze r c = some x) : cellAt (clearAt maze r c) r c = some 32 := by
  have h0 : 0 ≤ r ∧ 0 ≤ c := by
    by_contra hn
    rw [cellAt_neg maze r c (by omega)] at h
    cases h
  rw [cellAt_eq_getElem _ r c h0.1 h0.2] at h ⊢
  cases hl : maze[r.toNat]? with
  | none => simp [hl] at h
  | some line =>
    simp only [hl, Option.some_bind] at h
    have hr : r.toNat < maze.length := (List.getElem?_eq_some.mp hl).1
    have hc : c.toNat < line.length := (List.getElem?_eq_some.mp h).1
    unfold clearAt
    simp [hl, List.getElem?_set, hr, hc]

theorem cellAt_clearAt_other (maze : List GoString) (r c r2 c2 : Int)
    (hne : ¬ (r2 = r ∧ c2 = c)) (hin : 0 ≤ r ∧ 0 ≤ c) :
    cellAt (clearAt maze r c) r2 c2 = cellAt maze r2 c2 := by
  by_cases h0 : r2 < 0 ∨ c2 < 0
  · rw [cellAt_neg _ r2 c2 h0, cellAt_neg _ r2 c2 h0]
  · rw [cellAt_eq_getElem _ r2 c2 (by omega) (by omega),
      cellAt_eq_getElem _ r2 c2 (by omega) (by omega)]
    unfold clearAt
    by_cases hr : r.toNat = r2.toNat
    · have hrr : r2 = r := by omega
      have hcc : c.toNat ≠ c2.toNat := by
        intro hc; apply hne; exact ⟨hrr, by omega⟩
      rw [← hr]
      cases hl : maze[r.toNat]? with
      | none =>
        have : maze.length ≤ r.toNat := by
          by_contra hlt
          rw [List.getElem?_eq_getElem (by omega)] at hl
          cases hl
        rw [List.set_eq_of_length_le this, hl]
      | some line =>
        have hlt : r.toNat < maze.length := (List.getElem?_eq_some.mp hl).1
        simp [List.getElem?_set, hlt, hcc]
    · rw [List.getElem?_set_ne hr]

theorem length_clearAt (maze : List GoString) (r c : Int) :
    (clearAt maze r c).length = maze.length := by
  unfold clearAt; simp

theorem rowLength_clearAt (maze : List GoString) (r c : Int) (k : Nat) :
    ((clearAt maze r c)[k]?).map List.length = (maze[k]?).map List.length := by
  unfold clearAt
  rw [List.getElem?_set]
  by_cases hk : r.toNat = k
  · subst hk
    by_cases hlt : r.toNat < maze.length
    · simp [hlt, List.getElem?_eq_getElem hlt]
    · simp only [hlt, if_false, if_true]
      rw [List.getElem?_eq_none (by omega)]
  · simp [hk]

theorem dotCount_set (maze : List GoString) (i : Nat) (line new : GoString)
    (h : maze[i]? = some line) :
    dotCount (maze.set i new) + line.count 46 = dotCount maze + new.count 46 := by
  induction maze generalizing i with
  | nil => simp at h
  | cons a t ih =>
    cases i with
    | zero =>
      simp at h
      subst h
      simp [dotCount]
      omega
    | succ j =>
      simp at h
      have := ih j h
      simp [dotCount] at this ⊢
      omega

theorem dotCount_clearAt (maze : List GoString) (r c : Int) (x : Nat)
    (h : cellAt maze r c = some x) :
    dotCount (clearAt maze r c) + (if x = 46 then 1 else 0) = dotCount maze := by
  have h0 : 0 ≤ r ∧ 0 ≤ c := by
    by_contra hn
    rw [cellAt_neg maze r c (by omega)] at h
    cases h
  rw [cellAt_eq_getElem _ r c h0.1 h0.2] at h
  cases hl : maze[r.toNat]? with
  | none => simp [hl] at h
  | some line =>
    simp only [hl, Option.some_bind] at h
    obtain ⟨hc, hx⟩ := List.getElem?_eq_some.mp h
    have hset := dotCount_set maze r.toNat line (line.set c.toNat 32) hl
    have hcnt := List.count_set 32 46 line c.toNat hc
    have hpos : (if x = 46 then 1 else 0) ≤ line.count 46 := by
      split_ifs with hx46
      · subst hx46
        rw [← hx]
        exact List.count_pos_iff.mpr (List.getElem_mem hc)
      · omega
    unfold clearAt
    simp only [hl, Option.getD_some]
    simp only [hx, beq_iff_eq] at hcnt
    simp at hcnt
    omega

theorem movePlayer_eq (g : Game) (dir : String) (p : Int × Int) (cell : Nat)
    (hm : makeMove g.maze g.player.row g.player.col dir = some p)
    (hc : cellAt g.maze p.1 p.2 = some cell) :
    movePlayer g dir = some (afterMove g p cell) := by
  unfold movePlayer afterMove
  simp only [hm, Option.some_bind, hc, removeDot_of_cellAt g.maze p.1 p.2 cell hc]
  split_ifs <;> rfl

theorem movePlayer_some (g : Game) (dir : String) (g2 : Game)
    (h : movePlayer g dir = some g2) :
    ∃ p cell, makeMove g.maze g.player.row g.player.col dir = some p ∧
      cellAt g.maze p.1 p.2 = some cell ∧ g2 = afterMove g p cell := by
  cases hm : makeMove g.maze g.player.row g.player.col dir with
  | none => simp [movePlayer, hm] at h
  | some p =>
    cases hc : cellAt g.maze p.1 p.2 with
    | none => simp [movePlayer, hm, hc] at h
    | some cell =>
      rw [movePlayer_eq g dir p cell hm hc] at h
      exact ⟨p, cell, rfl, hc, (Option.some.inj h).symm⟩

theorem afterMove_player (g : Game) (p : Int × Int) (cell : Nat) :
    (afterMove g p cell).player = { g.player with row := p.1, col := p.2 } ∧
    (afterMove g p cell).ghosts = g.ghosts ∧ (afterMove g p cell).lives = g.lives := by
  unfold afterMove
  split_ifs <;> exact ⟨rfl, rfl, rfl⟩

theorem collideOne_frame (g : Game) (gh : Ghost) :
    (collideOne g gh).maze = g.maze ∧ (collideOne g gh).numDots = g.numDots ∧
    (collideOne g gh).score = g.score ∧ (collideOne g gh).ghosts = g.ghosts ∧
    (collideOne g gh).pillCalls = g.pillCalls ∧
    (collideOne g gh).player.startRow = g.player.startRow ∧
    (collideOne g gh).player.startCol = g.player.startCol := by
  unfold collideOne
  by_cases h1 : g.player.row = gh.position.row ∧ g.player.col = gh.position.col
  · by_cases h2 : g.lives - 1 = 0
    · simp [h1, h2]
    · simp [h1, h2]
  · simp [h1]

theorem foldl_collideOne_frame (l : List Ghost) (g : Game) :
    (l.foldl collideOne g).maze = g.maze ∧ (l.foldl collideOne g).numDots = g.numDots ∧
    (l.foldl collideOne g).score = g.score ∧ (l.foldl collideOne g).ghosts = g.ghosts ∧
    (l.foldl collideOne g).pillCalls = g.pillCalls ∧
    (l.foldl collideOne g).player.startRow = g.player.startRow ∧
    (l.foldl collideOne g).player.startCol = g.player.startCol := by
  induction l generalizing g with
  | nil => simp
  | cons gh t ih =>
    rw [List.foldl_cons]
    obtain ⟨h1, h2, h3, h4, h5, h6, h7⟩ := ih (collideOne g gh)
    rw [h1, h2, h3, h4, h5, h6, h7]
    exact collideOne_frame g gh

theorem moveGhosts_some (g : Game) (rnd : Nat → Nat) (g2 : Game)
    (h : moveGhosts g rnd = some g2) :
    ∃ gs, moveGhostsFrom g.maze rnd 0 g.ghosts = some gs ∧ g2 = { g with ghosts := gs } := by
  unfold moveGhosts at h
  cases hgs : moveGhostsFrom g.maze rnd 0 g.ghosts with
  | none => simp [hgs] at h
  | some gs =>
    simp only [hgs, Option.some_bind] at h
    exact ⟨gs, rfl, (Option.some.inj h).symm⟩

theorem movePlayer_maze (g : Game) (dir : String) (g2 : Game)
    (h : movePlayer g dir = some g2) :
    (g2.maze = g.maze ∧ g2.numDots = g.numDots ∧ g2.score = g.score) ∨
    (∃ r c cell, cellAt g.maze r c = some cell ∧ (cell = 46 ∨ cell = 88) ∧
      g2.maze = clearAt g.maze r c ∧
      g2.numDots = g.numDots - (if cell = 46 then 1 else 0)) := by
  obtain ⟨p, cell, _, hc, hg2⟩ := movePlayer_some g dir g2 h
  subst hg2
  unfold afterMove
  by_cases h46 : cell = 46
  · right
    refine ⟨p.1, p.2, cell, hc, Or.inl h46, ?_, ?_⟩
    · simp [h46]
    · simp [h46]
  · by_cases h88 : cell = 88
    · right
      refine ⟨p.1, p.2, cell, hc, Or.inr h88, ?_, ?_⟩
      · simp [h88]
      · simp [h88]
    · left
      simp [h46, h88]

/-- Every operation of the loop leaves the maze alone or clears one cell that held a dot
or a pill; the dot count and the score move with it. -/
theorem applyOp_maze (g : Game) (op : Op) (g2 : Game) (h : applyOp g op = some g2) :
    (g2.maze = g.maze ∧ g2.numDots = g.numDots ∧ g2.score = g.score) ∨
    (∃ r c cell, cellAt g.maze r c = some cell ∧ (cell = 46 ∨ cell = 88) ∧
      g2.maze = clearAt g.maze r c ∧
      g2.numDots = g.numDots - (if cell = 46 then 1 else 0)) := by
  cases op with
  | move dir =>
    simp only [applyOp] at h
    exact movePlayer_maze g dir g2 h
  | input inp =>
    cases inp with
    | none =>
      simp only [applyOp, inputStep] at h
      cases h
      exact Or.inl ⟨rfl, rfl, rfl⟩
    | some ev =>
      simp only [applyOp, inputStep] at h
      have hm := movePlayer_maze _ ev g2 h
      have hmaze : (if ev = "ESC" then { g with lives := 0 } else g).maze = g.maze := by
        split_ifs <;> rfl
      have hdots : (if ev = "ESC" then { g with lives := 0 } else g).numDots = g.numDots := by
        split_ifs <;> rfl
      have hscore : (if ev = "ESC" then { g with lives := 0 } else g).score = g.score := by
        split_ifs <;> rfl
      rw [hmaze, hdots, hscore] at hm
      exact hm
  | ghosts rnd =>
    simp only [applyOp] at h
    obtain ⟨gs, _, hg2⟩ := moveGhosts_some g rnd g2 h
    subst hg2
    exact Or.inl ⟨rfl, rfl, rfl⟩
  | collisions =>
    simp only [applyOp] at h
    cases h
    obtain ⟨h1, h2, h3, _⟩ := foldl_collideOne_frame g.ghosts g
    exact Or.inl ⟨h1, h2, h3⟩

theorem applyOp_space (g : Game) (op : Op) (g2 : Game) (r c : Int)
    (h : applyOp g op = some g2) (hsp : cellAt g.maze r c = some 32) :
    cellAt g2.maze r c = some 32 := by
  rcases applyOp_maze g op g2 h with ⟨hm, _, _⟩ | ⟨r1, c1, cell, hc, h4688, hm, _⟩
  · rw [hm]; exact hsp
  · rw [hm]
    have h0 : 0 ≤ r1 ∧ 0 ≤ c1 := by
      by_contra hn
      rw [cellAt_neg g.maze r1 c1 (by omega)] at hc
      cases hc
    rw [cellAt_clearAt_other g.maze r1 c1 r c ?_ h0]
    · exact hsp
    · rintro ⟨rfl, rfl⟩
      rw [hsp] at hc
      rcases h4688 with h | h <;> · rw [h] at hc; cases hc

theorem runOps_space (ops : List Op) (g g2 : Game) (r c : Int)
    (h : runOps g ops = some g2) (hsp : cellAt g.maze r c = some 32) :
    cellAt g2.maze r c = some 32 := by
  induction ops generalizing g with
  | nil =>
    simp only [runOps] at h
    cases h
    exact hsp
  | cons op rest ih =>
    simp only [runOps] at h
    cases hop : applyOp g op with
    | none => simp [hop] at h
    | some g1 =>
      simp only [hop, Option.some_bind] at h
      exact ih g1 h (applyOp_space g op g1 r c hop hsp)

/-! ## The collision loop -/

theorem collideOne_of_not (g : Game) (gh : Ghost) (h : ¬ onGhost g.player gh) :
    collideOne g gh = g := by
  unfold onGhost at h
  unfold collideOne
  rw [if_neg h]

theorem collideOne_lives_of (g : Game) (gh : Ghost) (h : onGhost g.player gh) :
    (collideOne g gh).lives = g.lives - 1 := by
  unfold onGhost at h
  unfold collideOne
  by_cases h2 : g.lives - 1 = 0
  · simp [h, h2]
  · simp [h, h2]

theorem collideOne_lives_le (g : Game) (gh : Ghost) : (collideOne g gh).lives ≤ g.lives := by
  by_cases h : onGhost g.player gh
  · rw [collideOne_lives_of g gh h]; omega
  · rw [collideOne_of_not g gh h]

theorem foldl_collideOne_lives_le (l : List Ghost) (g : Game) :
    (l.foldl collideOne g).lives ≤ g.lives := by
  induction l generalizing g with
  | nil => simp
  | cons gh t ih =>
    rw [List.foldl_cons]
    exact le_trans (ih (collideOne g gh)) (collideOne_lives_le g gh)

theorem foldl_collideOne_of_none (l : List Ghost) (g : Game)
    (h : ∀ gh ∈ l, ¬ onGhost g.player gh) : l.foldl collideOne g = g := by
  induction l generalizing g with
  | nil => rfl
  | cons gh t ih =>
    rw [List.foldl_cons, collideOne_of_not g gh (h gh (List.mem_cons_self gh t))]
    exact ih g (fun x hx => h x (List.mem_cons_of_mem gh hx))

theorem foldl_collideOne_lives_lt (l : List Ghost) (g : Game)
    (h : ∃ gh ∈ l, onGhost g.player gh) : (l.foldl collideOne g).lives ≤ g.lives - 1 := by
  induction l generalizing g with
  | nil =>
    obtain ⟨gh, hmem, _⟩ := h
    cases hmem
  | cons a t ih =>
    rw [List.foldl_cons]
    by_cases ha : onGhost g.player a
    · have h1 := foldl_collideOne_lives_le t (collideOne g a)
      rw [collideOne_lives_of g a ha] at h1
      exact h1
    · rw [collideOne_of_not g a ha]
      apply ih
      obtain ⟨gh, hmem, hgh⟩ := h
      rcases List.mem_cons.mp hmem with rfl | hmem2
      · exact absurd hgh ha
      · exact ⟨gh, hmem2, hgh⟩

theorem collideOne_respawned_of (g : Game) (gh : Ghost) (h : onGhost g.player gh) :
    respawned (collideOne g gh) := by
  unfold onGhost at h
  unfold respawned collideOne
  by_cases h2 : g.lives - 1 = 0
  · simp [h, h2]
  · simp [h, h2]

theorem collideOne_respawned (g : Game) (gh : Ghost) (hg : respawned g) :
    respawned (collideOne g gh) := by
  by_cases h : onGhost g.player gh
  · exact collideOne_respawned_of g gh h
  · rw [collideOne_of_not g gh h]; exact hg

theorem foldl_collideOne_respawned (l : List Ghost) (g : Game) (hg : respawned g) :
    respawned (l.foldl collideOne g) := by
  induction l generalizing g with
  | nil => exact hg
  | cons a t ih =>
    rw [List.foldl_cons]
    exact ih _ (collideOne_respawned g a hg)

theorem foldl_collideOne_respawned_of (l : List Ghost) (g : Game)
    (h : ∃ gh ∈ l, onGhost g.player gh) : respawned (l.foldl collideOne g) := by
  induction l generalizing g with
  | nil =>
    obtain ⟨gh, hmem, _⟩ := h
    cases hmem
  | cons a t ih =>
    rw [List.foldl_cons]
    by_cases ha : onGhost g.player a
    · exact foldl_collideOne_respawned t _ (collideOne_respawned_of g a ha)
    · rw [collideOne_of_not g a ha]
      apply ih
      obtain ⟨gh, hmem, hgh⟩ := h
      rcases List.mem_cons.mp hmem with rfl | hmem2
      · exact absurd hgh ha
      · exact ⟨gh, hmem2, hgh⟩

theorem collideOne_player_of (g : Game) (gh : Ghost) (h : onGhost g.player gh) :
    (collideOne g gh).player = g.player ∨
    ((collideOne g gh).player.row = g.player.startRow ∧
      (collideOne g gh).player.col = g.player.startCol) := by
  unfold onGhost at h
  unfold collideOne
  by_cases h2 : g.lives - 1 = 0
  · left; simp [h, h2]
  · right; simp [h, h2]

theorem foldl_collideOne_once (l : List Ghost) (g : Game)
    (h1 : (l.filter (fun gh => decide (onGhost g.player gh))).length = 1)
    (h2 : ∀ gh ∈ l, onStart g.player gh → onGhost g.player gh) :
    (l.foldl collideOne g).lives = g.lives - 1 := by
  induction l generalizing g with
  | nil => simp at h1
  | cons a t ih =>
    rw [List.foldl_cons]
    by_cases ha : onGhost g.player a
    · have hnone : ∀ gh ∈ t, ¬ onGhost g.player gh := by
        have hlen : (t.filter (fun gh => decide (onGhost g.player gh))).length = 0 := by
          rw [List.filter_cons_of_pos (by simpa using ha)] at h1
          simpa using h1
        intro gh hmem hgh
        have : gh ∈ t.filter (fun gh => decide (onGhost g.player gh)) :=
          List.mem_filter.mpr ⟨hmem, by simpa using hgh⟩
        rw [List.length_eq_zero.mp hlen] at this
        cases this
      have hnone2 : ∀ gh ∈ t, ¬ onGhost (collideOne g a).player gh := by
        intro gh hmem hgh
        rcases collideOne_player_of g a ha with hp | ⟨hr, hc⟩
        · rw [hp] at hgh
          exact hnone gh hmem hgh
        · apply hnone gh hmem
          apply h2 gh (List.mem_cons_of_mem a hmem)
          unfold onGhost at hgh
          unfold onStart
          rw [← hr, ← hc]
          exact hgh
      rw [foldl_collideOne_of_none t _ hnone2]
      exact collideOne_lives_of g a ha
    · rw [collideOne_of_not g a ha]
      apply ih
      · rw [List.filter_cons_of_neg (by simpa using ha)] at h1
        exact h1
      · intro gh hmem
        exact h2 gh (List.mem_cons_of_mem a hmem)

/-- C5 (fails as stated): with lives 3 and two ghosts on the player, who stands on its start
cell, the collision phase takes two lives; so it does with one ghost on the player and one on
the start cell; and with lives 1 and two ghosts on the player lives ends at -1. -/
theorem collide_two_lives_cex :
    (0 < twoGhostsOnStart.lives ∧
      (∃ gh ∈ twoGhostsOnStart.ghosts, onGhost twoGhostsOnStart.player gh) ∧
      (collide twoGhostsOnStart).lives = twoGhostsOnStart.lives - 2) ∧
    (0 < ghostOnRespawn.lives ∧
      (∃ gh ∈ ghostOnRespawn.ghosts, onGhost ghostOnRespawn.player gh) ∧
      (collide ghostOnRespawn).lives = ghostOnRespawn.lives - 2) ∧
    (0 < lastLifeTwoGhosts.lives ∧
      (∃ gh ∈ lastLifeTwoGhosts.ghosts, onGhost lastLifeTwoGhosts.player gh) ∧
      (collide lastLifeTwoGhosts).lives = -1) := by
  decide

/-- C5 (amended): when lives > 0 and some ghost has the player's coordinates after the
movement phase, the collision phase takes at least one life (one per ghost met in turn);
it takes exactly one when a single ghost has the player's coordinates and every ghost on
the player's start cell is on the player's cell; and if the resulting lives > 0 the player
stands on its start coordinates. -/
theorem collide_lives (g : Game) (_hl : 0 < g.lives)
    (hhit : ∃ gh ∈ g.ghosts, onGhost g.player gh) :
    (collide g).lives ≤ g.lives - 1 ∧
    ((g.ghosts.filter (fun gh => decide (onGhost g.player gh))).length = 1 →
      (∀ gh ∈ g.ghosts, onStart g.player gh → onGhost g.player gh) →
      (collide g).lives = g.lives - 1) ∧
    (0 < (collide g).lives →
      (collide g).player.row = g.player.startRow ∧
      (collide g).player.col = g.player.startCol) := by
  refine ⟨foldl_collideOne_lives_lt g.ghosts g hhit, foldl_collideOne_once g.ghosts g, ?_⟩
  intro hpos
  have hr := foldl_collideOne_respawned_of g.ghosts g hhit hpos
  obtain ⟨_, _, _, _, _, h6, h7⟩ := foldl_collideOne_frame g.ghosts g
  unfold collide
  rw [← h6, ← h7]
  exact hr

/-- Witness for C5 (amended): one ghost on the player, one elsewhere, lives 3. -/
theorem collide_lives_witness :
    0 < oneGhostHit.lives ∧ (∃ gh ∈ oneGhostHit.ghosts, onGhost oneGhostHit.player gh) ∧
    (collide oneGhostHit).lives ≤ oneGhostHit.lives - 1 ∧
    (collide oneGhostHit).lives = 2 ∧ (collide oneGhostHit).player.row = 1 :=
  ⟨by decide, by decide,
    (collide_lives oneGhostHit (by decide) (by decide)).1,
    by decide, by decide⟩

/-! ## The input step -/

theorem makeMove_other (maze : List GoString) (r c : Int) (dir : String) (cell : Nat)
    (hU : dir ≠ "UP") (hD : dir ≠ "DOWN") (hR : dir ≠ "RIGHT") (hL : dir ≠ "LEFT")
    (hc : cellAt maze r c = some cell) : makeMove maze r c dir = some (r, c) := by
  unfold makeMove
  simp only [if_neg hU, if_neg hD, if_neg hR, if_neg hL, Option.some_bind, hc]
  split_ifs <;> rfl

/-- C6 (fails as stated): in the game loaded from the one-row maze "." (no player marker,
so the player is at (0, 0) on the dot) the input step for "ESC" also picks the dot up:
the maze, `numDots` and `score` change; on the maze "X" it starts a power-up. -/
theorem inputStep_esc_pickup_cex :
    (∃ g2, inputStep dotUnderPlayer (some "ESC") = some g2 ∧ g2.lives = 0 ∧
      g2.maze ≠ dotUnderPlayer.maze ∧ g2.numDots = dotUnderPlayer.numDots - 1 ∧
      g2.score = dotUnderPlayer.score + 1) ∧
    (∃ g2, inputStep pillUnderPlayer (some "ESC") = some g2 ∧
      g2.pillCalls = pillUnderPlayer.pillCalls + 1) := by
  refine ⟨⟨_, rfl, ?_⟩, ⟨_, rfl, ?_⟩⟩ <;> decide

/-- C6 (amended): when the event is "ESC" and the player stands on a cell of the maze, the
input step returns, sets lives to 0 and leaves the player's position, its start position and
the ghosts unchanged; the maze, `score` and `numDots` are unchanged and no power-up is
started provided the player's cell holds neither a dot nor a pill. -/
theorem inputStep_esc (g : Game) (cell : Nat)
    (hcell : cellAt g.maze g.player.row g.player.col = some cell) :
    ∃ g2, inputStep g (some "ESC") = some g2 ∧ g2.lives = 0 ∧ g2.player = g.player ∧
      g2.ghosts = g.ghosts ∧
      (cell ≠ 46 → cell ≠ 88 →
        g2.maze = g.maze ∧ g2.score = g.score ∧ g2.numDots = g.numDots ∧
        g2.pillCalls = g.pillCalls) := by
  have hm : makeMove ({ g with lives := 0 } : Game).maze ({ g with lives := 0 } : Game).player.row
      ({ g with lives := 0 } : Game).player.col "ESC" = some (g.player.row, g.player.col) :=
    makeMove_other g.maze g.player.row g.player.col "ESC" cell (by decide) (by decide)
      (by decide) (by decide) hcell
  have hmp := movePlayer_eq ({ g with lives := 0 } : Game) "ESC" (g.player.row, g.player.col)
    cell hm hcell
  refine ⟨afterMove ({ g with lives := 0 } : Game) (g.player.row, g.player.col) cell,
    ?_, ?_, ?_, ?_, ?_⟩
  · simp only [inputStep, if_true]
    exact hmp
  · unfold afterMove; split_ifs <;> rfl
  · unfold afterMove; split_ifs <;> rfl
  · unfold afterMove; split_ifs <;> rfl
  · intro h46 h88
    unfold afterMove
    rw [if_neg h46, if_neg h88]
    exact ⟨rfl, rfl, rfl, rfl⟩

/-- Witness for C6 (amended): ESC in `demoGame`, the player on its start cell. -/
theorem inputStep_esc_witness :
    cellAt demoGame.maze demoGame.player.row demoGame.player.col = some 80 ∧
    ∃ g2, inputStep demoGame (some "ESC") = some g2 ∧ g2.lives = 0 ∧
      g2.player = demoGame.player ∧ g2.ghosts = demoGame.ghosts ∧
      ((80 : Nat) ≠ 46 → (80 : Nat) ≠ 88 →
        g2.maze = demoGame.maze ∧ g2.score = demoGame.score ∧
        g2.numDots = demoGame.numDots ∧ g2.pillCalls = demoGame.pillCalls) :=
  ⟨by decide, inputStep_esc demoGame 80 (by decide)⟩

/-! ## The input reader -/

theorem readInput_three (a b c : Nat) (rest : List Nat) :
    readInput (a :: b :: c :: rest) =
      if a = 27 ∧ b = 91 then
        (if c = 65 then "UP" else if c = 66 then "DOWN" else if c = 67 then "RIGHT"
          else if c = 68 then "LEFT" else "")
      else "" := by
  unfold readInput
  simp only [List.length_cons, List.cons_append, List.getD_cons_zero, List.getD_cons_succ]
  rw [if_neg (by omega), if_pos (by omega)]

/-- C7 (fails as stated): a read of six bytes, the sequences of the UP and DOWN keys together,
decodes to "UP" although it is not the 3-byte sequence; and for a read of the single byte
'a' the goroutine sends the empty string on the channel. -/
theorem readInput_exactly_cex :
    readInput [27, 91, 65, 27, 91, 66] = "UP" ∧
    ([27, 91, 65, 27, 91, 66] : List Nat) ≠ [27, 91, 65] ∧
    readerIteration (some [97]) = some [""] := by
  decide

/-- C7 (amended): `readInput` yields "ESC" exactly for the single byte 0x1B; it yields "UP",
"DOWN", "RIGHT", "LEFT" exactly for a read of at least three bytes that starts ESC '['
followed by 'A', 'B', 'C', 'D'; any other read yields the empty string; and the goroutine
sends the result of every successful read on the channel, the empty string included. -/
theorem readInput_decode (bytes : List Nat) :
    (readInput bytes = "ESC" ↔ bytes = [27]) ∧
    (readInput bytes = "UP" ↔ ∃ rest, bytes = 27 :: 91 :: 65 :: rest) ∧
    (readInput bytes = "DOWN" ↔ ∃ rest, bytes = 27 :: 91 :: 66 :: rest) ∧
    (readInput bytes = "RIGHT" ↔ ∃ rest, bytes = 27 :: 91 :: 67 :: rest) ∧
    (readInput bytes = "LEFT" ↔ ∃ rest, bytes = 27 :: 91 :: 68 :: rest) ∧
    (bytes ≠ [27] → (¬ ∃ k rest, bytes = 27 :: 91 :: k :: rest ∧ 65 ≤ k ∧ k ≤ 68) →
      readInput bytes = "") ∧
    readerIteration (some bytes) = some [readInput bytes] := by
  refine ⟨?_, ?_, ?_, ?_, ?_, ?_, rfl⟩
  all_goals
    rcases bytes with _ | ⟨a, _ | ⟨b, _ | ⟨c, rest⟩⟩⟩
    · simp [readInput]
    · by_cases ha : a = 27 <;> simp [readInput, ha]
    · simp [readInput]
    · rw [readInput_three]
      by_cases ha : a = 27 <;> by_cases hb : b = 91 <;>
        by_cases h65 : c = 65 <;> by_cases h66 : c = 66 <;>
        by_cases h67 : c = 67 <;> by_cases h68 : c = 68 <;>
        simp [ha, hb, h65, h66, h67, h68]

/-! ## Loading and the dot counter -/

/-- A rune decoded from a non-ASCII first byte is above 0x7F, and the bytes it takes after
the first are continuation bytes (0x80 or above). -/
theorem decodeRune_spec (b0 : Nat) (t : List Nat) :
    0x7F < (decodeRune b0 t).1 ∧
    ∀ i, i < (decodeRune b0 t).2 - 1 → ∀ b, t[i]? = some b → 0x80 ≤ b := by
  unfold decodeRune
  split_ifs with h1 h2 h3
  · rcases t with _ | ⟨b1, t1⟩
    · simp
    · simp only
      split_ifs with h4 h5
      · refine ⟨h5, ?_⟩
        intro i hi b hb
        have hi0 : i = 0 := by omega
        subst hi0
        simp at hb
        omega
      · simp
      · simp
  · rcases t with _ | ⟨b1, _ | ⟨b2, t2⟩⟩
    · simp
    · simp
    · simp only
      split_ifs with h4 h5
      · refine ⟨by omega, ?_⟩
        intro i hi b hb
        rcases i with _ | _ | i
        · simp at hb; omega
        · simp at hb; omega
        · omega
      · simp
      · simp
  · rcases t with _ | ⟨b1, _ | ⟨b2, _ | ⟨b3, t3⟩⟩⟩
    · simp
    · simp
    · simp
    · simp only
      split_ifs with h4 h5
      · refine ⟨by omega, ?_⟩
        intro i hi b hb
        rcases i with _ | _ | _ | i
        · simp at hb; omega
        · simp at hb; omega
        · simp at hb; omega
        · omega
      · simp
      · simp
  · simp

/-- The number of pairs of a `range` loop whose rune is `'.'`. -/
theorem rangeFrom_dots (l : List Nat) (col skip : Nat)
    (hskip : ∀ i, i < skip → ∀ b, l[i]? = some b → 0x80 ≤ b) :
    ((rangeFrom col skip l).filter (fun cr => decide (cr.2 = 46))).length = l.count 46 := by
  induction l generalizing col skip with
  | nil => simp [rangeFrom]
  | cons b0 t ih =>
    cases skip with
    | succ k =>
      have hb0 : 0x80 ≤ b0 := hskip 0 (by omega) b0 (by simp)
      have hne : b0 ≠ 46 := by omega
      simp only [rangeFrom]
      rw [List.count_cons_of_ne (Ne.symm hne)]
      exact ih (col + 1) k (fun i hi b hb => hskip (i + 1) (by omega) b (by simpa using hb))
    | zero =>
      simp only [rangeFrom]
      split_ifs with hlt
      · have h := ih (col + 1) 0 (fun i hi => by omega)
        by_cases h46 : b0 = 46
        · subst h46
          simp [h]
        · rw [List.filter_cons_of_neg (by simpa using h46), h,
            List.count_cons_of_ne (Ne.symm h46)]
      · obtain ⟨hr, hcont⟩ := decodeRune_spec b0 t
        have h := ih (col + 1) ((decodeRune b0 t).2 - 1) hcont
        have hne : (decodeRune b0 t).1 ≠ 46 := by omega
        have hne0 : b0 ≠ 46 := by omega
        rw [List.filter_cons_of_neg (by simpa using hne), h,
          List.count_cons_of_ne (Ne.symm hne0)]

theorem loadCell_frame (row : Nat) (g : Game) (cr : Nat × Nat) :
    (loadCell row g cr).maze = g.maze ∧
    (loadCell row g cr).numDots = g.numDots + (if cr.2 = 46 then 1 else 0) := by
  unfold loadCell
  by_cases h80 : cr.2 = 80
  · simp [h80]
  · by_cases h71 : cr.2 = 71
    · simp [h71]
    · by_cases h46 : cr.2 = 46
      · simp [h46]
      · simp [h80, h71, h46]

theorem foldl_loadCell_frame (row : Nat) (l : List (Nat × Nat)) (g : Game) :
    (l.foldl (loadCell row) g).maze = g.maze ∧
    (l.foldl (loadCell row) g).numDots =
      g.numDots + ((l.filter (fun cr => decide (cr.2 = 46))).length : Int) := by
  induction l generalizing g with
  | nil => simp
  | cons cr t ih =>
    rw [List.foldl_cons]
    obtain ⟨h1, h2⟩ := ih (loadCell row g cr)
    obtain ⟨h3, h4⟩ := loadCell_frame row g cr
    rw [h1, h2, h3, h4]
    refine ⟨rfl, ?_⟩
    by_cases h46 : cr.2 = 46
    · rw [List.filter_cons_of_pos (by simpa using h46)]
      simp [h46]
      ring
    · rw [List.filter_cons_of_neg (by simpa using h46)]
      simp [h46]

theorem loadRows_frame (rows : List GoString) (row : Nat) (g : Game) :
    (loadRows row rows g).maze = g.maze ∧
    (loadRows row rows g).numDots = g.numDots + (dotCount rows : Int) := by
  induction rows generalizing row g with
  | nil => simp [loadRows, dotCount]
  | cons ln rest ih =>
    simp only [loadRows]
    obtain ⟨h1, h2⟩ := ih (row + 1) ((rangeString ln).foldl (loadCell row) g)
    obtain ⟨h3, h4⟩ := foldl_loadCell_frame row (rangeString ln) g
    rw [h1, h2, h3, h4]
    refine ⟨rfl, ?_⟩
    unfold rangeString
    rw [rangeFrom_dots ln 0 0 (fun i hi => by omega)]
    simp [dotCount]
    ring

/-- The state `loadMaze` builds from the start state holds the lines read as its maze, and
`numDots` is the number of dot bytes in it. -/
theorem loadMaze_dotsCounted (lines : List GoString) :
    (loadMaze initGame lines).maze = lines ∧ dotsCounted (loadMaze initGame lines) := by
  unfold dotsCounted loadMaze
  obtain ⟨h1, h2⟩ := loadRows_frame ({ initGame with maze := initGame.maze ++ lines } : Game).maze
    0 ({ initGame with maze := initGame.maze ++ lines } : Game)
  rw [h1, h2]
  simp [initGame]

theorem dotCount_eq_zero_iff (maze : List GoString) :
    dotCount maze = 0 ↔ ∀ r c, cellAt maze r c ≠ some 46 := by
  constructor
  · intro h r c hc
    have h0 : 0 ≤ r ∧ 0 ≤ c := by
      by_contra hn
      rw [cellAt_neg maze r c (by omega)] at hc
      cases hc
    have hcl := dotCount_clearAt maze r c 46 hc
    simp at hcl
    omega
  · intro h
    unfold dotCount
    apply List.sum_eq_zero
    intro n hn
    obtain ⟨ln, hmem, hcount⟩ := List.mem_map.mp hn
    rw [← hcount]
    apply List.count_eq_zero.mpr
    intro h46
    obtain ⟨r, hr, hrget⟩ := List.getElem_of_mem hmem
    obtain ⟨c, hc, hcget⟩ := List.getElem_of_mem h46
    apply h (r : Int) (c : Int)
    rw [cellAt_eq_getElem maze _ _ (by omega) (by omega)]
    simp only [Int.toNat_ofNat]
    rw [List.getElem?_eq_getElem hr, hrget]
    simp only [Option.some_bind]
    rw [List.getElem?_eq_getElem hc, hcget]

theorem applyOp_dotsCounted (g : Game) (op : Op) (g2 : Game)
    (h : applyOp g op = some g2) (hinv : dotsCounted g) :
    dotsCounted g2 ∧ g2.numDots ≤ g.numDots := by
  unfold dotsCounted at hinv ⊢
  rcases applyOp_maze g op g2 h with ⟨hm, hd, _⟩ | ⟨r, c, cell, hc, _, hm, hd⟩
  · rw [hm, hd]
    exact ⟨hinv, le_refl _⟩
  · have hcl := dotCount_clearAt g.maze r c cell hc
    rw [hm, hd, hinv]
    split_ifs at hcl ⊢ <;> constructor <;> omega

theorem runOps_dotsCounted (ops : List Op) (g g2 : Game)
    (h : runOps g ops = some g2) (hinv : dotsCounted g) :
    dotsCounted g2 ∧ g2.numDots ≤ g.numDots := by
  induction ops generalizing g with
  | nil =>
    simp only [runOps] at h
    cases h
    exact ⟨hinv, le_refl _⟩
  | cons op rest ih =>
    simp only [runOps] at h
    cases hop : applyOp g op with
    | none => simp [hop] at h
    | some g1 =>
      simp only [hop, Option.some_bind] at h
      obtain ⟨h1, h2⟩ := applyOp_dotsCounted g op g1 hop hinv
      obtain ⟨h3, h4⟩ := ih g1 h h1
      exact ⟨h3, le_trans h4 h2⟩

theorem tick_eq_runOps (g : Game) (inp : Option String) (rnd : Nat → Nat) :
    tick g inp rnd = runOps g [Op.input inp, Op.ghosts rnd, Op.collisions] := by
  unfold tick
  simp only [runOps, applyOp]
  cases inputStep g inp with
  | none => rfl
  | some g1 => simp only [Option.some_bind]

/-- C4: in a state reached from the state `loadMaze` builds by operations of the loop, when
`movePlayer` brings the player onto a dot cell (r, c): `numDots` was at least 1 and stays
non-negative; afterwards the cell is a space, every other cell and every row length is
unchanged, `numDots` has gone down by exactly 1 and `score` up by exactly 1; and after any
further operations of the loop, a `movePlayer` call that leaves the player on (r, c) changes
neither the maze, `numDots` nor `score`. -/
theorem movePlayer_dot_pickup (lines : List GoString) (ops0 : List Op) (g : Game)
    (dir : String) (g2 : Game)
    (hreach : runOps (loadMaze initGame lines) ops0 = some g)
    (hmove : movePlayer g dir = some g2)
    (hdot : cellAt g.maze g2.player.row g2.player.col = some 46) :
    1 ≤ g.numDots ∧ 0 ≤ g2.numDots ∧
    cellAt g2.maze g2.player.row g2.player.col = some 32 ∧
    (∀ r2 c2, ¬ (r2 = g2.player.row ∧ c2 = g2.player.col) →
      cellAt g2.maze r2 c2 = cellAt g.maze r2 c2) ∧
    g2.maze.length = g.maze.length ∧
    (∀ k : Nat, (g2.maze[k]?).map List.length = (g.maze[k]?).map List.length) ∧
    g2.numDots = g.numDots - 1 ∧ g2.score = g.score + 1 ∧
    (∀ (ops : List Op) (t : Game) (d : String) (t2 : Game),
      runOps g2 ops = some t → movePlayer t d = some t2 →
      t2.player.row = g2.player.row → t2.player.col = g2.player.col →
      t2.maze = t.maze ∧ t2.numDots = t.numDots ∧ t2.score = t.score) := by
  have hinv := (runOps_dotsCounted ops0 _ g hreach (loadMaze_dotsCounted lines).2).1
  unfold dotsCounted at hinv
  obtain ⟨p, cell, _, hc, hg2⟩ := movePlayer_some g dir g2 hmove
  have hpl := (afterMove_player g p cell).1
  rw [← hg2] at hpl
  have hrow : g2.player.row = p.1 := by rw [hpl]
  have hcol : g2.player.col = p.2 := by rw [hpl]
  rw [hrow, hcol] at hdot ⊢
  rw [hc] at hdot
  have h46 : cell = 46 := Option.some.inj hdot
  subst h46
  have hmz : g2.maze = clearAt g.maze p.1 p.2 := by rw [hg2]; simp [afterMove]
  have hnd : g2.numDots = g.numDots - 1 := by rw [hg2]; simp [afterMove]
  have hcl := dotCount_clearAt g.maze p.1 p.2 46 hc
  simp only [if_true] at hcl
  have h0 : 0 ≤ p.1 ∧ 0 ≤ p.2 := by
    by_contra hn
    rw [cellAt_neg g.maze p.1 p.2 (by omega)] at hc
    cases hc
  have hsp : cellAt g2.maze p.1 p.2 = some 32 := by
    rw [hmz]; exact cellAt_clearAt_self g.maze p.1 p.2 46 hc
  refine ⟨by omega, by omega, hsp, ?_, ?_, ?_, hnd, ?_, ?_⟩
  · intro r2 c2 hne
    rw [hmz]
    exact cellAt_clearAt_other g.maze p.1 p.2 r2 c2 hne h0
  · rw [hmz]; exact length_clearAt g.maze p.1 p.2
  · intro k
    rw [hmz]; exact rowLength_clearAt g.maze p.1 p.2 k
  · rw [hg2]; simp [afterMove]
  · intro ops t d t2 hrun hmv hr hcl2
    have hsp2 := runOps_space ops g2 t p.1 p.2 hrun hsp
    obtain ⟨q, cell2, _, hc2, ht2⟩ := movePlayer_some t d t2 hmv
    have hpl2 := (afterMove_player t q cell2).1
    rw [← ht2] at hpl2
    have hq1 : q.1 = p.1 := by rw [← hr, hpl2]
    have hq2 : q.2 = p.2 := by rw [← hcl2, hpl2]
    rw [hq1, hq2, hsp2] at hc2
    have hcell : cell2 = 32 := (Option.some.inj hc2).symm
    subst hcell
    rw [ht2]
    simp [afterMove]

/-- Witness for C4: `demoMaze` is loaded, the ghost moves and the collision loop runs, then
the player moves RIGHT onto the dot at (1, 2). -/
theorem movePlayer_dot_pickup_witness :
    runOps (loadMaze initGame demoMaze) demoPrefix = some demoBeforeRight ∧
    movePlayer demoBeforeRight "RIGHT" = some demoAfterRight ∧
    cellAt demoBeforeRight.maze demoAfterRight.player.row demoAfterRight.player.col = some 46 ∧
    1 ≤ demoBeforeRight.numDots ∧
    cellAt demoAfterRight.maze demoAfterRight.player.row demoAfterRight.player.col = some 32 ∧
    demoAfterRight.numDots = demoBeforeRight.numDots - 1 ∧
    demoAfterRight.score = demoBeforeRight.score + 1 :=
  ⟨by decide, by decide, by decide,
    (movePlayer_dot_pickup demoMaze demoPrefix demoBeforeRight "RIGHT" demoAfterRight
      (by decide) (by decide) (by decide)).1,
    (movePlayer_dot_pickup demoMaze demoPrefix demoBeforeRight "RIGHT" demoAfterRight
      (by decide) (by decide) (by decide)).2.2.1,
    (movePlayer_dot_pickup demoMaze demoPrefix demoBeforeRight "RIGHT" demoAfterRight
      (by decide) (by decide) (by decide)).2.2.2.2.2.2.1,
    (movePlayer_dot_pickup demoMaze demoPrefix demoBeforeRight "RIGHT" demoAfterRight
      (by decide) (by decide) (by decide)).2.2.2.2.2.2.2.1⟩

/-- C9: from the state `loadMaze` builds, after any sequence of operations of the loop
(`movePlayer` for any string, the input step, `moveGhosts` for any draws, the collision
loop) `numDots` equals the number of dot cells of the maze; it is never negative and never
above its loaded value; `numDots == 0` holds exactly when no dot cell remains; and every
further operation, and every further tick, keeps the equality and does not increase
`numDots`. -/
theorem numDots_invariant (lines : List GoString) (ops : List Op) (g : Game)
    (hrun : runOps (loadMaze initGame lines) ops = some g) :
    g.numDots = (dotCount g.maze : Int) ∧ 0 ≤ g.numDots ∧
    g.numDots ≤ (loadMaze initGame lines).numDots ∧
    (g.numDots = 0 ↔ ∀ r c, cellAt g.maze r c ≠ some 46) ∧
    (∀ op g2, applyOp g op = some g2 →
      g2.numDots = (dotCount g2.maze : Int) ∧ g2.numDots ≤ g.numDots) ∧
    (∀ inp rnd g2, tick g inp rnd = some g2 →
      g2.numDots = (dotCount g2.maze : Int) ∧ g2.numDots ≤ g.numDots) := by
  obtain ⟨hinv, hle⟩ := runOps_dotsCounted ops _ g hrun (loadMaze_dotsCounted lines).2
  have hinv2 := hinv
  unfold dotsCounted at hinv2
  refine ⟨hinv2, by omega, hle, ?_, ?_, ?_⟩
  · rw [← dotCount_eq_zero_iff, hinv2]
    omega
  · intro op g2 hop
    exact applyOp_dotsCounted g op g2 hop hinv
  · intro inp rnd g2 ht
    rw [tick_eq_runOps] at ht
    exact runOps_dotsCounted _ g g2 ht hinv

/-- Witness for C9: `demoMaze` loaded, then one tick with the event RIGHT. -/
theorem numDots_invariant_witness :
    runOps (loadMaze initGame demoMaze) demoOps = some demoAfterTick ∧
    demoAfterTick.numDots = (dotCount demoAfterTick.maze : Int) ∧
    demoAfterTick.numDots = 1 :=
  ⟨by decide, (numDots_invariant demoMaze demoOps demoAfterTick (by decide)).1, by decide⟩

/-! ## Safety of a tick -/

theorem width_eq_getElem (maze : List GoString) :
    width maze = ((maze[0]?).map List.length).getD 0 := by
  cases maze <;> simp [width]

theorem width_clearAt (maze : List GoString) (r c : Int) :
    width (clearAt maze r c) = width maze := by
  rw [width_eq_getElem, width_eq_getElem, rowLength_clearAt]

theorem rectangular_clearAt (maze : List GoString) (r c : Int) (h : rectangular maze) :
    rectangular (clearAt maze r c) := by
  intro ln hmem
  rw [width_clearAt]
  obtain ⟨k, hk, hget⟩ := List.getElem_of_mem hmem
  have hrow := rowLength_clearAt maze r c k
  rw [List.getElem?_eq_getElem hk, hget] at hrow
  have hk2 : k < maze.length := by rw [length_clearAt] at hk; exact hk
  rw [List.getElem?_eq_getElem hk2] at hrow
  simp only [Option.map_some'] at hrow
  rw [Option.some.inj hrow]
  exact h _ (List.getElem_mem hk2)

theorem inBounds_of_shape (m1 m2 : List GoString) (r c : Int)
    (hl : m2.length = m1.length) (hw : width m2 = width m1) (h : inBounds m1 r c) :
    inBounds m2 r c := by
  unfold inBounds at h ⊢
  rw [hl, hw]
  exact h

theorem wellFormed_of_shape (g g2 : Game)
    (hl : g2.maze.length = g.maze.length) (hw : width g2.maze = width g.maze)
    (hrect : rectangular g2.maze)
    (hstart : g2.player.startRow = g.player.startRow ∧ g2.player.startCol = g.player.startCol)
    (hpl : inBounds g.maze g2.player.row g2.player.col)
    (hgh : ∀ gh ∈ g2.ghosts, inBounds g.maze gh.position.row gh.position.col)
    (hwf : wellFormed g) : wellFormed g2 := by
  obtain ⟨hne, _, h1, _, hs, _⟩ := hwf
  refine ⟨?_, hrect, by omega, inBounds_of_shape _ _ _ _ hl hw hpl, ?_, ?_⟩
  · intro hnil
    apply hne
    apply List.length_eq_zero.mp
    rw [← hl, hnil]
    rfl
  · rw [hstart.1, hstart.2]
    exact inBounds_of_shape _ _ _ _ hl hw hs
  · intro gh hmem
    exact inBounds_of_shape _ _ _ _ hl hw (hgh gh hmem)

theorem movePlayer_safe (g : Game) (dir : String) (hwf : wellFormed g) :
    ∃ g2, movePlayer g dir = some g2 ∧ wellFormed g2 ∧
      g2.maze.length = g.maze.length ∧ width g2.maze = width g.maze ∧
      g2.lives = g.lives := by
  have hwf2 := hwf
  obtain ⟨hne, hrect, _, hpl, _, hgh⟩ := hwf2
  obtain ⟨p, cell, hm, hpin, hc⟩ :=
    makeMove_total g.maze g.player.row g.player.col dir hne hrect hpl
  refine ⟨afterMove g p cell, movePlayer_eq g dir p cell hm hc, ?_⟩
  have hshape : (afterMove g p cell).maze.length = g.maze.length ∧
      width (afterMove g p cell).maze = width g.maze ∧
      rectangular (afterMove g p cell).maze ∧ (afterMove g p cell).lives = g.lives := by
    unfold afterMove
    split_ifs
    · exact ⟨length_clearAt _ _ _, width_clearAt _ _ _, rectangular_clearAt _ _ _ hrect, rfl⟩
    · exact ⟨length_clearAt _ _ _, width_clearAt _ _ _, rectangular_clearAt _ _ _ hrect, rfl⟩
    · exact ⟨rfl, rfl, hrect, rfl⟩
  obtain ⟨hpl2, hgh2, _⟩ := afterMove_player g p cell
  refine ⟨?_, hshape.1, hshape.2.1, hshape.2.2.2⟩
  apply wellFormed_of_shape g _ hshape.1 hshape.2.1 hshape.2.2.1 ?_ ?_ ?_ hwf
  · rw [hpl2]; exact ⟨rfl, rfl⟩
  · rw [hpl2]; exact hpin
  · rw [hgh2]; exact hgh

theorem inputStep_safe (g : Game) (inp : Option String) (hwf : wellFormed g) :
    ∃ g2, inputStep g inp = some g2 ∧ wellFormed g2 ∧
      g2.maze.length = g.maze.length ∧ width g2.maze = width g.maze := by
  cases inp with
  | none => exact ⟨g, rfl, hwf, rfl, rfl⟩
  | some ev =>
    simp only [inputStep]
    by_cases hesc : ev = "ESC"
    · rw [if_pos hesc]
      have hwf0 : wellFormed ({ g with lives := 0 } : Game) := hwf
      obtain ⟨g2, h1, h2, h3, h4, _⟩ := movePlayer_safe _ ev hwf0
      exact ⟨g2, h1, h2, h3, h4⟩
    · rw [if_neg hesc]
      obtain ⟨g2, h1, h2, h3, h4, _⟩ := movePlayer_safe g ev hwf
      exact ⟨g2, h1, h2, h3, h4⟩

theorem moveGhostsFrom_safe (maze : List GoString) (rnd : Nat → Nat) (l : List Ghost) (i : Nat)
    (hne : maze ≠ []) (hrect : rectangular maze)
    (hgh : ∀ gh ∈ l, inBounds maze gh.position.row gh.position.col) :
    ∃ gs, moveGhostsFrom maze rnd i l = some gs ∧ gs.length = l.length ∧
      ∀ gh ∈ gs, inBounds maze gh.position.row gh.position.col := by
  induction l generalizing i with
  | nil => exact ⟨[], rfl, rfl, fun gh hmem => by cases hmem⟩
  | cons a t ih =>
    obtain ⟨p, cell, hm, hpin, _⟩ :=
      makeMove_total maze a.position.row a.position.col (drawDirection (rnd i)) hne hrect
        (hgh a (List.mem_cons_self a t))
    obtain ⟨gs, h1, h2, h3⟩ := ih (i + 1) (fun gh hmem => hgh gh (List.mem_cons_of_mem a hmem))
    refine ⟨{ a with position := { a.position with row := p.1, col := p.2 } } :: gs, ?_, ?_, ?_⟩
    · simp only [moveGhostsFrom, hm, Option.some_bind, h1]
    · simp [h2]
    · intro gh hmem
      rcases List.mem_cons.mp hmem with rfl | hmem2
      · exact hpin
      · exact h3 gh hmem2

theorem collideOne_inBounds (maze : List GoString) (g : Game) (gh : Ghost)
    (hpl : inBounds maze g.player.row g.player.col)
    (hst : inBounds maze g.player.startRow g.player.startCol) :
    inBounds maze (collideOne g gh).player.row (collideOne g gh).player.col := by
  unfold collideOne
  by_cases h1 : g.player.row = gh.position.row ∧ g.player.col = gh.position.col
  · by_cases h2 : g.lives - 1 = 0
    · simpa [h1, h2] using hpl
    · simpa [h1, h2] using hst
  · simpa [h1] using hpl

theorem foldl_collideOne_inBounds (maze : List GoString) (l : List Ghost) (g : Game)
    (hpl : inBounds maze g.player.row g.player.col)
    (hst : inBounds maze g.player.startRow g.player.startCol) :
    inBounds maze (l.foldl collideOne g).player.row (l.foldl collideOne g).player.col := by
  induction l generalizing g with
  | nil => exact hpl
  | cons a t ih =>
    rw [List.foldl_cons]
    apply ih
    · exact collideOne_inBounds maze g a hpl hst
    · obtain ⟨_, _, _, _, _, h6, h7⟩ := collideOne_frame g a
      rw [h6, h7]
      exact hst

theorem collide_safe (g : Game) (hwf : wellFormed g) :
    wellFormed (collide g) ∧ (collide g).maze = g.maze := by
  obtain ⟨h1, _, _, h4, _, h6, h7⟩ := foldl_collideOne_frame g.ghosts g
  have hwf2 := hwf
  obtain ⟨_, hrect, _, hpl, hst, hgh⟩ := hwf2
  unfold collide
  refine ⟨?_, h1⟩
  apply wellFormed_of_shape g _ (by rw [h1]) (by rw [h1]) (by rw [h1]; exact hrect) ⟨h6, h7⟩ ?_ ?_
    hwf
  · exact foldl_collideOne_inBounds g.maze g.ghosts g hpl hst
  · rw [h4]; exact hgh

/-- C10: from a non-empty rectangular maze of width at least 1 with the player, its start
cell and every ghost in bounds, one full tick (input step with any event or none, ghost
moves for any draws, collision loop) runs without an out-of-range index or slice, keeps the
maze rectangular with the same row count and width, keeps the number of ghosts, and leaves
the player, its start cell and every ghost in bounds. -/
theorem tick_safe (g : Game) (inp : Option String) (rnd : Nat → Nat) (hwf : wellFormed g) :
    ∃ g2, tick g inp rnd = some g2 ∧ wellFormed g2 ∧
      g2.maze.length = g.maze.length ∧ width g2.maze = width g.maze ∧
      g2.ghosts.length = g.ghosts.length := by
  obtain ⟨g1, h1, hwf1, hl1, hw1⟩ := inputStep_safe g inp hwf
  have hg1 : g1.ghosts = g.ghosts := by
    cases inp with
    | none =>
      simp only [inputStep] at h1
      cases h1
      rfl
    | some ev =>
      simp only [inputStep] at h1
      obtain ⟨p, cell, _, _, hg⟩ := movePlayer_some _ ev g1 h1
      rw [hg, (afterMove_player _ p cell).2.1]
      split_ifs <;> rfl
  obtain ⟨hne1, hrect1, hwd1, hpl1, hst1, hgh1⟩ := hwf1
  obtain ⟨gs, h2, hlen, hgs⟩ := moveGhostsFrom_safe g1.maze rnd g1.ghosts 0 hne1 hrect1 hgh1
  have hwf2 : wellFormed ({ g1 with ghosts := gs } : Game) :=
    ⟨hne1, hrect1, hwd1, hpl1, hst1, hgs⟩
  obtain ⟨hwf3, hm3⟩ := collide_safe _ hwf2
  refine ⟨collide { g1 with ghosts := gs }, ?_, hwf3, ?_, ?_, ?_⟩
  · unfold tick moveGhosts
    simp only [h1, Option.some_bind, h2]
  · rw [hm3]; exact hl1
  · rw [hm3]; exact hw1
  · have := (foldl_collideOne_frame gs ({ g1 with ghosts := gs } : Game)).2.2.2.1
    unfold collide
    rw [this]
    simp only
    rw [hlen, hg1]


/-- Witness for C10: one tick of `demoGame` with the event RIGHT. -/
theorem tick_safe_witness :
    wellFormed demoGame ∧
    ∃ g2, tick demoGame (some "RIGHT") (fun _ => 0) = some g2 ∧ wellFormed g2 ∧
      g2.maze.length = demoGame.maze.length ∧ width g2.maze = width demoGame.maze ∧
      g2.ghosts.length = demoGame.ghosts.length :=
  ⟨by decide, tick_safe demoGame (some "RIGHT") (fun _ => 0) (by decide)⟩

end PacMan
